import Mathlib

/-!
Verification development for the QryptoRand `qrng-controller` crate.

Shallow embedding conventions:
* Machine integers become `Nat` with explicit `% 2^w` where the Rust type wraps
  (`U256` is `% 2^256`, `u64` is `% 2^64`, `u32` is `% 2^32`, `u8` is `% 256`).
* Byte buffers (`&[u8]`, `Vec<u8>`, `FixedBytes<N>`) become `List Nat` whose
  elements are intended to be `< 256`.
* Fallible Rust code returns `Except` when it returns `Result`, and `Option`
  where the source can panic: a `none` result models a process abort (panic),
  not a value returned to the caller.
* External collaborators (the chain provider, the signer, the ECVRF prover,
  keccak256, the OS RNG) are passed in as function parameters ("oracles"),
  since their code is not part of this repository.
-/

namespace QryptoRand

/-! ## Big-endian byte conversions

`fromBE` models `U256::from_be_bytes` (most significant byte first);
`toBE w n` produces the `w`-byte big-endian encoding of `n`. -/

def fromBE (l : List Nat) : Nat :=
  l.foldl (fun a b => a * 256 + b) 0

def toBE : Nat → Nat → List Nat
  | 0, _ => []
  | w + 1, n => toBE w (n / 256) ++ [n % 256]

theorem toBE_length (w n : Nat) : (toBE w n).length = w := by
  induction w generalizing n with
  | zero => rfl
  | succ w ih => simp [toBE, ih]

theorem fromBE_aux (l : List Nat) (a : Nat) :
    l.foldl (fun x b => x * 256 + b) a = a * 256 ^ l.length + fromBE l := by
  induction l generalizing a with
  | nil => simp [fromBE]
  | cons b l ih =>
    have hb : fromBE (b :: l) = b * 256 ^ l.length + fromBE l := by
      show List.foldl (fun x c => x * 256 + c) (0 * 256 + b) l = _
      rw [ih]
      ring_nf
    simp only [List.foldl_cons, List.length_cons, ih, hb]
    ring

theorem fromBE_append (l₁ l₂ : List Nat) :
    fromBE (l₁ ++ l₂) = fromBE l₁ * 256 ^ l₂.length + fromBE l₂ := by
  show List.foldl _ _ (l₁ ++ l₂) = _
  rw [List.foldl_append]
  exact fromBE_aux l₂ (fromBE l₁)

theorem fromBE_lt (l : List Nat) (h : ∀ b ∈ l, b < 256) :
    fromBE l < 256 ^ l.length := by
  have aux : ∀ (l : List Nat) (a : Nat), (∀ b ∈ l, b < 256) →
      l.foldl (fun x b => x * 256 + b) a < (a + 1) * 256 ^ l.length := by
    intro l
    induction l with
    | nil =>
      intro a _
      simp only [List.foldl_nil, List.length_nil, pow_zero, Nat.mul_one]
      omega
    | cons b l ih =>
      intro a hb
      have h1 : b < 256 := hb b (List.mem_cons_self b l)
      have h2 := ih (a * 256 + b) (fun c hc => hb c (List.mem_cons_of_mem b hc))
      have h3 : (a * 256 + b + 1) * 256 ^ l.length ≤ (a + 1) * 256 ^ (b :: l).length := by
        simp only [List.length_cons, pow_succ]
        have : a * 256 + b + 1 ≤ (a + 1) * 256 := by omega
        calc (a * 256 + b + 1) * 256 ^ l.length ≤ (a + 1) * 256 * 256 ^ l.length :=
              Nat.mul_le_mul_right _ this
          _ = (a + 1) * (256 ^ l.length * 256) := by ring
      exact lt_of_lt_of_le h2 h3
  simpa using aux l 0 h

theorem fromBE_toBE (w n : Nat) : fromBE (toBE w n) = n % 256 ^ w := by
  induction w generalizing n with
  | zero => simp [toBE, fromBE, Nat.mod_one]
  | succ w ih =>
    rw [toBE, fromBE_append, ih]
    have hP : 0 < 256 ^ w := Nat.pos_pow_of_pos w (by omega)
    have h1 : n % 256 < 256 := Nat.mod_lt _ (by omega)
    have h2 : n / 256 % 256 ^ w < 256 ^ w := Nat.mod_lt _ hP
    have h3 : n = 256 * (n / 256) + n % 256 := (Nat.div_add_mod n 256).symm.trans (by ring)
    have h4 : n / 256 = 256 ^ w * (n / 256 / 256 ^ w) + n / 256 % 256 ^ w :=
      (Nat.div_add_mod _ _).symm
    have h5 : 256 ^ (w + 1) = 256 ^ w * 256 := pow_succ 256 w
    have hsmall : n / 256 % 256 ^ w * 256 + n % 256 < 256 ^ (w + 1) := by
      rw [h5]; omega
    have hdecomp : n = (n / 256 % 256 ^ w * 256 + n % 256)
        + 256 ^ (w + 1) * (n / 256 / 256 ^ w) := by
      rw [h5]
      calc n = 256 * (n / 256) + n % 256 := h3
        _ = 256 * (256 ^ w * (n / 256 / 256 ^ w) + n / 256 % 256 ^ w) + n % 256 := by rw [← h4]
        _ = (n / 256 % 256 ^ w * 256 + n % 256) + 256 ^ w * 256 * (n / 256 / 256 ^ w) := by ring
    have hmod : n % 256 ^ (w + 1) = n / 256 % 256 ^ w * 256 + n % 256 := by
      conv_lhs => rw [hdecomp]
      rw [Nat.add_mul_mod_self_left]
      exact Nat.mod_eq_of_lt hsmall
    simp only [fromBE, List.length_singleton, pow_one, List.foldl_cons, List.foldl_nil,
      Nat.zero_mul, Nat.zero_add]
    omega

theorem toBE_mem_lt (w n : Nat) : ∀ b ∈ toBE w n, b < 256 := by
  induction w generalizing n with
  | zero => intro b hb; simp [toBE] at hb
  | succ w ih =>
    intro b hb
    simp only [toBE, List.mem_append, List.mem_singleton] at hb
    rcases hb with hb | hb
    · exact ih _ b hb
    · subst hb; exact Nat.mod_lt _ (by omega)

/-! ## Data model (from `src/qrng-controller/src/lib.rs` and the contract bindings) -/

/-- Embedding of `SignatureSolidity { r: FixedBytes<32>, s: FixedBytes<32>, v: u8, wallet: Address }`.
`r` and `s` are byte lists; `v` is a `u8` (`Nat` mod 256); the wallet address is an
opaque identity, modelled as `Nat`. -/
structure SignatureSolidity where
  r : List Nat
  s : List Nat
  v : Nat
  wallet : Nat
deriving DecidableEq, Repr, Inhabited

/-- Embedding of `EcvrfContractProofSolidity`: the structured VRF proof record sent on-chain.
`alpha` is a raw 32-byte digest, `uWitness` a 20-byte address, all other fields
256-bit unsigned integers (`U256`, decoded big-endian). -/
structure EcvrfContractProofSolidity where
  alpha : List Nat
  pk : Nat × Nat
  gamma : Nat × Nat
  c : Nat
  s : Nat
  uWitness : List Nat
  cGammaWitness : Nat × Nat
  sHashWitness : Nat × Nat
  zInv : Nat
deriving DecidableEq, Repr, Inhabited

/-- Embedding of `pub type SignedNumber = (U256, FixedBytes<32>, SignatureSolidity, EcvrfContractProofSolidity)`:
(value, hash, signature, proof). -/
abbrev SignedNumber := Nat × List Nat × SignatureSolidity × EcvrfContractProofSolidity

/-- The raw signature produced by the external `ethsign::SecretKey::sign` call:
`{ r: [u8;32], s: [u8;32], v: u8 }` with `v` the raw recovery id. -/
structure RawSig where
  r : List Nat
  s : List Nat
  v : Nat
deriving DecidableEq, Repr, Inhabited

/-- The raw tuple returned by the hardware backend operation `get_qrn` for one number:
`SignedQRN { number, hash, sig, v, proof }` (lib.rs line 38). `sig` is a 64-byte
r‖s concatenation, `v` the raw recovery id, `proof` the serialized VRF proof. -/
structure SignedQRN where
  number : List Nat
  hash : List Nat
  sig : List Nat
  v : Nat
  proof : List Nat
deriving DecidableEq, Repr, Inhabited

/-- The output of the external ECVRF prover as consumed by `create_vrf_proof`
(offline.rs lines 87-107): each component already normalized and rendered as a
32-byte big-endian array by `.b32()`. -/
structure ProverOutput where
  alpha : List Nat
  pk_x : List Nat
  pk_y : List Nat
  gamma_x : List Nat
  gamma_y : List Nat
  c : List Nat
  s : List Nat
  witness_address : List Nat
  witness_gamma_x : List Nat
  witness_gamma_y : List Nat
  witness_hash_x : List Nat
  witness_hash_y : List Nat
  inverse_z : List Nat
deriving DecidableEq, Repr, Inhabited

/-- A transaction receipt as observed by `send_random_number`: a success flag
(`receipt.status()`) and the transaction hash (`receipt.transaction_hash()`,
modelled as an opaque `Nat`). -/
structure Receipt where
  status : Bool
  transaction_hash : Nat
deriving DecidableEq, Repr, Inhabited

/-- The on-chain calls `send_random_number` can issue (lib.rs lines 104-116):
single `addRandomNumber(value, signature, hash, proof)` or batch
`addRandomNumbers(values, signatures, hashes, proofs)`, with the argument
order of the source. -/
inductive ContractCall where
  | addRandomNumber (value : Nat) (signature : SignatureSolidity)
      (hash : List Nat) (proof : EcvrfContractProofSolidity)
  | addRandomNumbers (data : List Nat) (signatures : List SignatureSolidity)
      (hashes : List (List Nat)) (proofs : List EcvrfContractProofSolidity)
deriving DecidableEq, Repr, Inhabited

/-- The distinct failure exits of `send_random_number`. In the Rust source all
are `color_eyre::Report` values, but they arise from distinct points and carry
distinct payloads: a propagated generation error (`rng.get_signed(..)?`), a
propagated send error (`.send().await?`), a propagated receipt-fetch error
(`get_receipt().await?` — the ambiguous outcome), a propagated trace-RPC error,
and the constructed `eyre!("Revert reason: {trace:?}")` report. Opaque error
payloads are modelled as `Nat`. -/
inductive SendError where
  | genFailed (e : Nat)
  | sendFailed (e : Nat)
  | receiptFailed (e : Nat)
  | traceFailed (e : Nat)
  | revert (trace : Nat)
deriving DecidableEq, Repr

/-- Observable outcome of one `send_random_number` run: the returned
`Result<()>`, the on-chain call that was issued (if generation succeeded),
and the list of `debug_traceTransaction` lookups issued (by tx hash). -/
structure SendOutcome where
  result : Except SendError Unit
  call : Option ContractCall
  traces : List Nat
deriving Repr

/-- Chain log events as decoded by the main loop (main.rs lines 80-90):
`AskElements { qrng }`, `GenerationLeft { qrng, number }`, or a log that
decodes as neither (the `else { debug!(..) }` branch). -/
inductive ChainEvent where
  | askElements (qrng : Nat)
  | generationLeft (qrng : Nat) (number : Nat)
  | unknown
deriving DecidableEq, Repr

/-- Mutable state of the main loop: `generation_left: U256` and `nonce: u64`. -/
structure LoopState where
  generation_left : Nat
  nonce : Nat
deriving DecidableEq, Repr

/-- A record of one `send_random_number` invocation by the main loop:
`(generation_left, nonce, wallet_address)` as passed at main.rs lines 94-100. -/
abbrev SubCall := Nat × Nat × Nat

/-! ## Source embeddings -/

/-- One `next_n` read of `parse_vrf_proof` (lib.rs lines 145-149): reads
`buf[i..i + 32]` — always 32 bytes regardless of the advance argument.
The out-of-range Rust slice indexing panics; that abort is `none` here. -/
def read32 (buf : List Nat) (i : Nat) : Option (List Nat) :=
  if i + 32 ≤ buf.length then some ((buf.drop i).take 32) else none

/-- Embedding of `parse_vrf_proof` (lib.rs lines 143-177). The cursor `i` starts at 0; each
`next_n n` reads 32 bytes at `i` and advances `i` by `n` (20 for `uWitness`,
32 otherwise), so the reads happen at offsets 0, 32, 64, 96, 128, 160, 192,
224, then 224 + 20 = 244, 276, 308, 340, 372. `U256::from_be_bytes` is
`fromBE`; `Address::from_slice(&next_n(20)[..20])` takes the first 20 bytes of
the 32-byte read. A `none` result models the panic of the source on a short
buffer. -/
def parse_vrf_proof (buf : List Nat) : Option EcvrfContractProofSolidity :=
  match read32 buf 0 with      -- alpha = next_n(32), i: 0 → 32
  | none => none
  | some alpha =>
  match read32 buf 32 with     -- pk_x, i: 32 → 64
  | none => none
  | some pk_x =>
  match read32 buf 64 with     -- pk_y, i: 64 → 96
  | none => none
  | some pk_y =>
  match read32 buf 96 with     -- gamma_x, i: 96 → 128
  | none => none
  | some gamma_x =>
  match read32 buf 128 with    -- gamma_y, i: 128 → 160
  | none => none
  | some gamma_y =>
  match read32 buf 160 with    -- c, i: 160 → 192
  | none => none
  | some c =>
  match read32 buf 192 with    -- s, i: 192 → 224
  | none => none
  | some s =>
  match read32 buf 224 with    -- u_witness = next_n(20), i: 224 → 244
  | none => none
  | some u_witness =>
  match read32 buf 244 with    -- c_gamma_x, i: 244 → 276
  | none => none
  | some c_gamma_x =>
  match read32 buf 276 with    -- c_gamma_y, i: 276 → 308
  | none => none
  | some c_gamma_y =>
  match read32 buf 308 with    -- s_hash_x, i: 308 → 340
  | none => none
  | some s_hash_x =>
  match read32 buf 340 with    -- s_hash_y, i: 340 → 372
  | none => none
  | some s_hash_y =>
  match read32 buf 372 with    -- z_inv, i: 372 → 404
  | none => none
  | some z_inv =>
  some
    { alpha := alpha
      pk := (fromBE pk_x, fromBE pk_y)
      gamma := (fromBE gamma_x, fromBE gamma_y)
      c := fromBE c
      s := fromBE s
      uWitness := u_witness.take 20
      cGammaWitness := (fromBE c_gamma_x, fromBE c_gamma_y)
      sHashWitness := (fromBE s_hash_x, fromBE s_hash_y)
      zInv := fromBE z_inv }

/-- Embedding of `sign_data` (offline.rs lines 121-133). The external signing call
`private_key_sign.sign(random_data)` is the oracle `signFn`; the function
builds `SignatureSolidity { r, s, v: signature.v + 27, wallet }`, with the
`u8` addition taken mod 256. -/
def sign_data (random_data : List Nat) (signFn : List Nat → RawSig)
    (wallet_address : Nat) : SignatureSolidity :=
  let signature := signFn random_data
  { r := signature.r
    s := signature.s
    v := (signature.v + 27) % 256
    wallet := wallet_address }

/-- The per-tuple conversion inside the hardware-backed `get_signed`
(lib.rs lines 38-56): value via big-endian decode (panics unless 32 bytes),
`r`/`s` split from the 64-byte raw signature, `v + 27`, and
`parse_vrf_proof` on the raw proof bytes. `none` models a panic. -/
def hw_convert (wallet : Nat) (q : SignedQRN) : Option SignedNumber :=
  if q.number.length = 32 then
    match parse_vrf_proof q.proof with
    | none => none
    | some proof_solidity =>
      some (fromBE q.number, q.hash,
        { r := q.sig.take 32
          s := q.sig.drop 32
          v := (q.v + 27) % 256
          wallet := wallet },
        proof_solidity)
  else none

/-- Embedding of `create_vrf_proof` (offline.rs lines 86-108): the direct-construction path.
The external prover `ecvrf.prove_contract` together with the `.b32()`
normalizations is the `ProverOutput`; this function assembles the structured
proof from those 32-byte arrays, taking the first 20 bytes of
`witness_address.b32()` for `uWitness`. -/
def create_vrf_proof (x : ProverOutput) : EcvrfContractProofSolidity :=
  { alpha := x.alpha
    pk := (fromBE x.pk_x, fromBE x.pk_y)
    gamma := (fromBE x.gamma_x, fromBE x.gamma_y)
    c := fromBE x.c
    s := fromBE x.s
    uWitness := x.witness_address.take 20
    cGammaWitness := (fromBE x.witness_gamma_x, fromBE x.witness_gamma_y)
    sHashWitness := (fromBE x.witness_hash_x, fromBE x.witness_hash_y)
    zInv := fromBE x.inverse_z }

/-- Modelled from the spec: the repository has no serializer for
`EcvrfContractProofSolidity`; §3 defines the canonical byte layout —
"7×32B + 20B + 5×32B = 404 bytes, fields in that exact order, big-endian
integers", order alpha, pk, gamma, c, s, uWitness, cGammaWitness,
sHashWitness, zInv, no padding. -/
def serialize_proof (p : EcvrfContractProofSolidity) : List Nat :=
  p.alpha ++ toBE 32 p.pk.1 ++ toBE 32 p.pk.2
    ++ toBE 32 p.gamma.1 ++ toBE 32 p.gamma.2
    ++ toBE 32 p.c ++ toBE 32 p.s
    ++ p.uWitness
    ++ toBE 32 p.cGammaWitness.1 ++ toBE 32 p.cGammaWitness.2
    ++ toBE 32 p.sHashWitness.1 ++ toBE 32 p.sHashWitness.2
    ++ toBE 32 p.zInv

/-- Decoder written from the words of the spec (§3 and §4.1), to be compared
with the parser of the source, `parse_vrf_proof`: fields in the order alpha, pk, gamma, c, s,
uWitness, cGammaWitness, sHashWitness, zInv at consecutive offsets with no
padding; each 32-byte field a big-endian unsigned integer, `alpha` a raw
digest; `uWitness` the low-offset 20 bytes of the 32-byte slot that starts
immediately after `s` (offset 224), the next field starting at 244 so that
exactly 7×32 + 20 + 5×32 = 404 bytes are consumed (`zInv` ends at 404).
The offsets here are absolute, independent of any cursor. -/
def spec_layout_decode (buf : List Nat) : EcvrfContractProofSolidity :=
  { alpha := (buf.drop 0).take 32
    pk := (fromBE ((buf.drop 32).take 32), fromBE ((buf.drop 64).take 32))
    gamma := (fromBE ((buf.drop 96).take 32), fromBE ((buf.drop 128).take 32))
    c := fromBE ((buf.drop 160).take 32)
    s := fromBE ((buf.drop 192).take 32)
    uWitness := ((buf.drop 224).take 32).take 20
    cGammaWitness := (fromBE ((buf.drop 244).take 32), fromBE ((buf.drop 276).take 32))
    sHashWitness := (fromBE ((buf.drop 308).take 32), fromBE ((buf.drop 340).take 32))
    zInv := fromBE ((buf.drop 372).take 32) }

/-- Embedding of `generation_left.into_limbs()[0] as u32` (lib.rs line 96): the
least-significant 64-bit limb of the `U256`, truncated to `u32`. -/
def gen_left_of (generation_left : Nat) : Nat :=
  generation_left % 2 ^ 64 % 2 ^ 32

/-- Embedding of `send_random_number` (lib.rs lines 80-132). Oracles: `gen` is
`rng.get_signed(amount, nonce, wallet)`; `sendCall` is
`.send().await` on the chosen contract call, returning a pending-tx id;
`getReceipt` is `get_receipt().await`; `traceRpc` is the
`debug_traceTransaction` raw request keyed by tx hash, returning an opaque
JSON value (`Nat`). Every `?` propagation becomes the corresponding
`SendError` constructor. `data[0]` etc. in the single branch are Rust
indexing (panic if empty); they are total here via `getD`, which is only
reachable with a generator that returned at least one tuple. -/
def send_random_number (gen : Nat → Nat → Nat → Except Nat (List SignedNumber))
    (sendCall : ContractCall → Except Nat Nat)
    (getReceipt : Nat → Except Nat Receipt)
    (traceRpc : Nat → Except Nat Nat)
    (wallet_address generation_left nonce : Nat) : SendOutcome :=
  let gen_left := gen_left_of generation_left
  match gen gen_left nonce wallet_address with
  | .error e => { result := .error (.genFailed e), call := none, traces := [] }
  | .ok signed_qrn_data =>
    let data := signed_qrn_data.map (fun x => x.1)
    let hashes := signed_qrn_data.map (fun x => x.2.1)
    let signatures := signed_qrn_data.map (fun x => x.2.2.1)
    let proofs := signed_qrn_data.map (fun x => x.2.2.2)
    let tx_call : ContractCall :=
      if generation_left ≠ 1 then
        .addRandomNumbers data signatures hashes proofs
      else
        .addRandomNumber (data.getD 0 0) (signatures.getD 0 default)
          (hashes.getD 0 []) (proofs.getD 0 default)
    match sendCall tx_call with
    | .error e => { result := .error (.sendFailed e), call := some tx_call, traces := [] }
    | .ok tx =>
      match getReceipt tx with
      | .error e => { result := .error (.receiptFailed e), call := some tx_call, traces := [] }
      | .ok receipt =>
        if receipt.status then
          { result := .ok (), call := some tx_call, traces := [] }
        else
          match traceRpc receipt.transaction_hash with
          | .error e =>
            { result := .error (.traceFailed e), call := some tx_call,
              traces := [receipt.transaction_hash] }
          | .ok trace =>
            { result := .error (.revert trace), call := some tx_call,
              traces := [receipt.transaction_hash] }

/-- Embedding of `OfflineGenerator::get_signed` (offline.rs lines 51-73). Oracles:
`randoms i` is the fresh 32-byte draw `rng.gen()` of iteration `i`; `keccak`
is `alloy::primitives::keccak256`; `signFn` and `proveFn` are the external
signer and ECVRF prover. For each `i < amount`: the value is the big-endian
decode of the draw, the hash is `keccak256(data ++ (nonce + i).to_be_bytes())`
with the `u64` sum wrapping, the signature comes from `sign_data` on the hash,
and the proof from `create_vrf_proof` on the draw. Always `Ok`. -/
def offline_get_signed (randoms : Nat → List Nat) (keccak : List Nat → List Nat)
    (signFn : List Nat → RawSig) (proveFn : List Nat → ProverOutput)
    (amount nonce address : Nat) : Except Nat (List SignedNumber) :=
  .ok ((List.range amount).map (fun i =>
    let data := randoms i
    let hash := keccak (data ++ toBE 8 ((nonce + i) % 2 ^ 64))
    (fromBE data, hash, sign_data hash signFn address, create_vrf_proof (proveFn data))))

/-- The per-event state update of the main loop (main.rs lines 80-90):
`AskElements` with `qrng == wallet_address` increments `generation_left`
(wrapping `U256` addition); `GenerationLeft` with `qrng == wallet_address`
and `number != 0` overwrites it; everything else leaves it unchanged. -/
def accumulate (wallet_address : Nat) (generation_left : Nat) : ChainEvent → Nat
  | .askElements qrng =>
    if qrng = wallet_address then (generation_left + 1) % 2 ^ 256 else generation_left
  | .generationLeft qrng number =>
    if qrng = wallet_address ∧ number ≠ 0 then number else generation_left
  | .unknown => generation_left

/-- One iteration of the `while let Some(log)` loop body (main.rs lines
77-105): update the counter from the event, then if `generation_left >= 5`
call `send_random_number` (oracle `pipeline`, taking generation_left, nonce,
wallet); on success zero the counter and refresh the nonce via `getNonce`
(`getNonce(wallet).call().await?`); either failure propagates out via `?`.
Returns the new state and the list of pipeline invocations made. -/
def loop_step (wallet_address : Nat)
    (pipeline : Nat → Nat → Nat → Except Nat Unit) (getNonce : Except Nat Nat)
    (st : LoopState) (e : ChainEvent) : Except Nat (LoopState × List SubCall) :=
  let g := accumulate wallet_address st.generation_left e
  if 5 ≤ g then
    match pipeline g st.nonce wallet_address with
    | .error err => .error err
    | .ok _ =>
      match getNonce with
      | .error err => .error err
      | .ok n => .ok ({ generation_left := 0, nonce := n }, [(g, st.nonce, wallet_address)])
  else
    .ok ({ st with generation_left := g }, [])

/-- The event loop folded over a finite prefix of the event stream,
concatenating the pipeline invocations of each iteration. -/
def loop_run (wallet_address : Nat)
    (pipeline : Nat → Nat → Nat → Except Nat Unit) (getNonce : Except Nat Nat)
    (st : LoopState) : List ChainEvent → Except Nat (LoopState × List SubCall)
  | [] => .ok (st, [])
  | e :: es =>
    match loop_step wallet_address pipeline getNonce st e with
    | .error err => .error err
    | .ok (st', cs) =>
      match loop_run wallet_address pipeline getNonce st' es with
      | .error err => .error err
      | .ok (st'', cs') => .ok (st'', cs ++ cs')

/-! ## Helper lemmas about the proof codec -/

theorem read32_eq (buf : List Nat) (i : Nat) (h : i + 32 ≤ buf.length) :
    read32 buf i = some ((buf.drop i).take 32) := by
  simp [read32, h]

theorem read32_none (buf : List Nat) (i : Nat) (h : buf.length < i + 32) :
    read32 buf i = none := by
  simp only [read32, if_neg (by omega : ¬ i + 32 ≤ buf.length)]

theorem parse_eq_layout (buf : List Nat) (h : 404 ≤ buf.length) :
    parse_vrf_proof buf = some (spec_layout_decode buf) := by
  unfold parse_vrf_proof
  rw [read32_eq buf 0 (by omega), read32_eq buf 32 (by omega),
    read32_eq buf 64 (by omega), read32_eq buf 96 (by omega),
    read32_eq buf 128 (by omega), read32_eq buf 160 (by omega),
    read32_eq buf 192 (by omega), read32_eq buf 224 (by omega),
    read32_eq buf 244 (by omega), read32_eq buf 276 (by omega),
    read32_eq buf 308 (by omega), read32_eq buf 340 (by omega),
    read32_eq buf 372 (by omega)]
  rfl

theorem parse_short_none (buf : List Nat) (h : buf.length < 404) :
    parse_vrf_proof buf = none := by
  unfold parse_vrf_proof
  by_cases h0 : 0 + 32 ≤ buf.length
  case neg => rw [read32_none buf 0 (by omega)]
  rw [read32_eq buf 0 (by omega)]
  by_cases h1 : 32 + 32 ≤ buf.length
  case neg => rw [read32_none buf 32 (by omega)]
  rw [read32_eq buf 32 (by omega)]
  by_cases h2 : 64 + 32 ≤ buf.length
  case neg => rw [read32_none buf 64 (by omega)]
  rw [read32_eq buf 64 (by omega)]
  by_cases h3 : 96 + 32 ≤ buf.length
  case neg => rw [read32_none buf 96 (by omega)]
  rw [read32_eq buf 96 (by omega)]
  by_cases h4 : 128 + 32 ≤ buf.length
  case neg => rw [read32_none buf 128 (by omega)]
  rw [read32_eq buf 128 (by omega)]
  by_cases h5 : 160 + 32 ≤ buf.length
  case neg => rw [read32_none buf 160 (by omega)]
  rw [read32_eq buf 160 (by omega)]
  by_cases h6 : 192 + 32 ≤ buf.length
  case neg => rw [read32_none buf 192 (by omega)]
  rw [read32_eq buf 192 (by omega)]
  by_cases h7 : 224 + 32 ≤ buf.length
  case neg => rw [read32_none buf 224 (by omega)]
  rw [read32_eq buf 224 (by omega)]
  by_cases h8 : 244 + 32 ≤ buf.length
  case neg => rw [read32_none buf 244 (by omega)]
  rw [read32_eq buf 244 (by omega)]
  by_cases h9 : 276 + 32 ≤ buf.length
  case neg => rw [read32_none buf 276 (by omega)]
  rw [read32_eq buf 276 (by omega)]
  by_cases h10 : 308 + 32 ≤ buf.length
  case neg => rw [read32_none buf 308 (by omega)]
  rw [read32_eq buf 308 (by omega)]
  by_cases h11 : 340 + 32 ≤ buf.length
  case neg => rw [read32_none buf 340 (by omega)]
  rw [read32_eq buf 340 (by omega), read32_none buf 372 (by omega)]

/-- Well-formedness of a 32-byte array: length 32 with byte-valued entries. -/
def Bytes32 (l : List Nat) : Prop := l.length = 32 ∧ ∀ b ∈ l, b < 256

instance (l : List Nat) : Decidable (Bytes32 l) := by
  unfold Bytes32; infer_instance

/-- Well-formedness of a structured proof: the shapes any value produced from
real 32-byte prover data has (digest of 32 bytes, 20-byte address, integer
fields below 2^256). -/
def EcvrfContractProofSolidity.WF (p : EcvrfContractProofSolidity) : Prop :=
  p.alpha.length = 32 ∧ p.uWitness.length = 20 ∧
  p.pk.1 < 256 ^ 32 ∧ p.pk.2 < 256 ^ 32 ∧
  p.gamma.1 < 256 ^ 32 ∧ p.gamma.2 < 256 ^ 32 ∧
  p.c < 256 ^ 32 ∧ p.s < 256 ^ 32 ∧
  p.cGammaWitness.1 < 256 ^ 32 ∧ p.cGammaWitness.2 < 256 ^ 32 ∧
  p.sHashWitness.1 < 256 ^ 32 ∧ p.sHashWitness.2 < 256 ^ 32 ∧
  p.zInv < 256 ^ 32

/-- Well-formedness of a prover output: every component a 32-byte array. -/
def ProverOutput.WF (x : ProverOutput) : Prop :=
  Bytes32 x.alpha ∧ Bytes32 x.pk_x ∧ Bytes32 x.pk_y ∧
  Bytes32 x.gamma_x ∧ Bytes32 x.gamma_y ∧ Bytes32 x.c ∧ Bytes32 x.s ∧
  Bytes32 x.witness_address ∧
  Bytes32 x.witness_gamma_x ∧ Bytes32 x.witness_gamma_y ∧
  Bytes32 x.witness_hash_x ∧ Bytes32 x.witness_hash_y ∧ Bytes32 x.inverse_z

theorem serialize_length (p : EcvrfContractProofSolidity)
    (ha : p.alpha.length = 32) (hu : p.uWitness.length = 20) :
    (serialize_proof p).length = 404 := by
  simp [serialize_proof, List.length_append, toBE_length, ha, hu]

theorem layout_serialize (p : EcvrfContractProofSolidity) (hp : p.WF) :
    spec_layout_decode (serialize_proof p) = p := by
  obtain ⟨ha, hu, hpk1, hpk2, hg1, hg2, hc, hs, hcg1, hcg2, hsh1, hsh2, hz⟩ := hp
  have t32 : ∀ n : Nat, (toBE 32 n).length = 32 := fun n => toBE_length 32 n
  set S := serialize_proof p with hS
  have d32 : S.drop 32 = toBE 32 p.pk.1 ++ (toBE 32 p.pk.2 ++ (toBE 32 p.gamma.1 ++
      (toBE 32 p.gamma.2 ++ (toBE 32 p.c ++ (toBE 32 p.s ++ (p.uWitness ++
      (toBE 32 p.cGammaWitness.1 ++ (toBE 32 p.cGammaWitness.2 ++
      (toBE 32 p.sHashWitness.1 ++ (toBE 32 p.sHashWitness.2 ++
      toBE 32 p.zInv)))))))))) := by
    rw [hS]
    simp only [serialize_proof, List.append_assoc]
    exact List.drop_left' ha
  have step : ∀ (k : Nat) (a rest : List Nat), S.drop k = a ++ rest → a.length = 32 →
      S.drop (k + 32) = rest := by
    intro k a rest hk hlen
    calc S.drop (k + 32) = (S.drop k).drop 32 := by rw [List.drop_drop]
      _ = (a ++ rest).drop 32 := by rw [hk]
      _ = rest := List.drop_left' hlen
  have d64 := step 32 _ _ d32 (t32 _)
  have d96 := step 64 _ _ d64 (t32 _)
  have d128 := step 96 _ _ d96 (t32 _)
  have d160 := step 128 _ _ d128 (t32 _)
  have d192 := step 160 _ _ d160 (t32 _)
  have d224 := step 192 _ _ d192 (t32 _)
  have d244 : S.drop 244 = toBE 32 p.cGammaWitness.1 ++ (toBE 32 p.cGammaWitness.2 ++
      (toBE 32 p.sHashWitness.1 ++ (toBE 32 p.sHashWitness.2 ++ toBE 32 p.zInv))) := by
    calc S.drop 244 = (S.drop 224).drop 20 := by rw [List.drop_drop, Nat.add_comm]
      _ = _ := by rw [d224]; exact List.drop_left' hu
  have d276 := step 244 _ _ d244 (t32 _)
  have d308 := step 276 _ _ d276 (t32 _)
  have d340 := step 308 _ _ d308 (t32 _)
  have d372 := step 340 _ _ d340 (t32 _)
  have takeBE : ∀ (n : Nat) (rest : List Nat), n < 256 ^ 32 →
      fromBE ((toBE 32 n ++ rest).take 32) = n := by
    intro n rest hn
    rw [List.take_left' (t32 n), fromBE_toBE, Nat.mod_eq_of_lt hn]
  show spec_layout_decode S = p
  unfold spec_layout_decode
  rw [List.drop_zero]
  have falpha : S.take 32 = p.alpha := by
    rw [hS]; simp only [serialize_proof, List.append_assoc]; exact List.take_left' ha
  have fu : ((S.drop 224).take 32).take 20 = p.uWitness := by
    rw [List.take_take]
    norm_num
    rw [d224]
    exact List.take_left' hu
  rw [falpha, d32, d64, d96, d128, d160, d192, fu, d244, d276, d308, d340, d372,
    takeBE _ _ hpk1, takeBE _ _ hpk2, takeBE _ _ hg1, takeBE _ _ hg2, takeBE _ _ hc,
    takeBE _ _ hs, takeBE _ _ hcg1, takeBE _ _ hcg2, takeBE _ _ hsh1, takeBE _ _ hsh2]
  rw [List.take_of_length_le (le_of_eq (t32 p.zInv)), fromBE_toBE, Nat.mod_eq_of_lt hz]

instance (p : EcvrfContractProofSolidity) : Decidable p.WF := by
  unfold EcvrfContractProofSolidity.WF; infer_instance

instance (x : ProverOutput) : Decidable x.WF := by
  unfold ProverOutput.WF; infer_instance

/-! ## Claims -/

/-- C1: the per-event transition of the accumulator — a `RequestIncrement`
(`AskElements`) from the wallet of the controller adds 1 to the count (stated below
the `U256` wrap point); an `OutstandingSnapshot` (`GenerationLeft`) from the
wallet with non-zero number overwrites the count absolutely (so from count 0,
three increments give 3 and a subsequent snapshot of 7 gives 7, not 10); a
snapshot of 0 changes nothing; events from another requester or of
unrecognized shape change nothing. -/
theorem accumulator_transition (w c n q : Nat) :
    (c + 1 < 2 ^ 256 → accumulate w c (.askElements w) = c + 1) ∧
    (n ≠ 0 → accumulate w c (.generationLeft w n) = n) ∧
    accumulate w c (.generationLeft w 0) = c ∧
    (q ≠ w → accumulate w c (.askElements q) = c ∧
      accumulate w c (.generationLeft q n) = c) ∧
    accumulate w c .unknown = c ∧
    List.foldl (accumulate w) 0
      [ChainEvent.askElements w, .askElements w, .askElements w] = 3 ∧
    List.foldl (accumulate w) 0
      [ChainEvent.askElements w, .askElements w, .askElements w,
        .generationLeft w 7] = 7 := by
  refine ⟨fun h => ?_, fun h => ?_, ?_, fun h => ⟨?_, ?_⟩, ?_, ?_, ?_⟩
  · simp only [accumulate, eq_self_iff_true, if_true]
    exact Nat.mod_eq_of_lt h
  · simp [accumulate, h]
  · simp [accumulate]
  · simp [accumulate, h]
  · simp [accumulate, h]
  · simp [accumulate]
  · norm_num [accumulate]
  · norm_num [accumulate]

theorem accumulator_transition_witness :
    accumulate 5 0 (.askElements 5) = 0 + 1 ∧
    accumulate 5 3 (.generationLeft 5 7) = 7 ∧
    accumulate 5 3 (.generationLeft 5 0) = 3 ∧
    accumulate 5 3 (.askElements 9) = 3 ∧
    accumulate 5 3 (.generationLeft 9 11) = 3 :=
  ⟨(accumulator_transition 5 0 7 9).1 (by norm_num),
   (accumulator_transition 5 3 7 9).2.1 (by norm_num),
   (accumulator_transition 5 3 7 9).2.2.1,
   ((accumulator_transition 5 3 11 9).2.2.2.1 (by norm_num)).1,
   ((accumulator_transition 5 3 11 9).2.2.2.1 (by norm_num)).2⟩

/-- C2: after every processed event the loop checks the threshold — if the
updated count is ≥ 5 it invokes the pipeline exactly once with
`(count, nonce, wallet)`; on success the count is reset to 0 and the nonce
refreshed from the chain; on failure the error propagates out; below the
threshold no submission happens. A run over five increment events from count 0
makes exactly one submission with N = 5 and ends back at count 0. -/
theorem loop_threshold_submission (w c nonce n' n₀ err : Nat) (e : ChainEvent)
    (pipeline : Nat → Nat → Nat → Except Nat Unit) (getNonce : Except Nat Nat) :
    (5 ≤ accumulate w c e →
      (pipeline (accumulate w c e) nonce w = .ok () → getNonce = .ok n' →
        loop_step w pipeline getNonce ⟨c, nonce⟩ e =
          .ok (⟨0, n'⟩, [(accumulate w c e, nonce, w)])) ∧
      (pipeline (accumulate w c e) nonce w = .error err →
        loop_step w pipeline getNonce ⟨c, nonce⟩ e = .error err)) ∧
    (accumulate w c e < 5 →
      loop_step w pipeline getNonce ⟨c, nonce⟩ e = .ok (⟨accumulate w c e, nonce⟩, [])) ∧
    loop_run w (fun _ _ _ => .ok ()) (.ok n₀) ⟨0, nonce⟩
      (List.replicate 5 (.askElements w)) = .ok (⟨0, n₀⟩, [(5, nonce, w)]) := by
  refine ⟨fun h5 => ⟨fun hp hn => ?_, fun hp => ?_⟩, fun hlt => ?_, ?_⟩
  · simp [loop_step, h5, hp, hn]
  · simp [loop_step, h5, hp]
  · simp [loop_step, Nat.not_le.mpr hlt]
  · norm_num [loop_run, loop_step, accumulate, List.replicate]

theorem loop_threshold_submission_witness :
    accumulate 1 4 (.askElements 1) = 5 ∧
    loop_step 1 (fun _ _ _ => .ok ()) (.ok 99) ⟨4, 10⟩ (.askElements 1) =
      .ok (⟨0, 99⟩, [(5, 10, 1)]) ∧
    loop_step 1 (fun _ _ _ => .error 3) (.ok 99) ⟨4, 10⟩ (.askElements 1) = .error 3 ∧
    loop_step 1 (fun _ _ _ => .ok ()) (.ok 99) ⟨2, 10⟩ (.askElements 1) =
      .ok (⟨3, 10⟩, []) := by
  have h := accumulator_transition 1 4 7 9
  refine ⟨by decide, ?_, ?_, ?_⟩
  · have := (loop_threshold_submission 1 4 10 99 0 3 (.askElements 1)
      (fun _ _ _ => .ok ()) (.ok 99)).1 (by decide)
    simpa using this.1 rfl rfl
  · have := (loop_threshold_submission 1 4 10 99 0 3 (.askElements 1)
      (fun _ _ _ => .error 3) (.ok 99)).1 (by decide)
    simpa using this.2 rfl
  · have := (loop_threshold_submission 1 2 10 99 0 3 (.askElements 1)
      (fun _ _ _ => .ok ()) (.ok 99)).2.1 (by decide)
    simpa using this

set_option maxRecDepth 40000 in
/-- C3 (counterexample): on a 403-byte buffer the decoder does not return a
recoverable error value to its caller — it aborts: the out-of-bounds slice
indexing inside `next_n` panics, modelled by the `none` outcome. There is no
`DecodeError` anywhere in the code. -/
theorem parse_vrf_proof_short_aborts_cex :
    parse_vrf_proof (List.replicate 403 0) = none := by decide

/-- C3 (amended): for every buffer with fewer than 404 bytes, the proof
decoder aborts the process (the Rust slice indexing `buf[i..i + 32]` panics
as soon as the cursor would read past the end), rather than returning a
recoverable `DecodeError::BufferTooShort`; `none` models that panic. -/
theorem parse_vrf_proof_short_aborts (buf : List Nat) (h : buf.length < 404) :
    parse_vrf_proof buf = none :=
  parse_short_none buf h

set_option maxRecDepth 40000 in
theorem parse_vrf_proof_short_aborts_witness :
    (List.replicate 100 7).length < 404 ∧
    parse_vrf_proof (List.replicate 100 7) = none :=
  ⟨by decide, parse_vrf_proof_short_aborts (List.replicate 100 7) (by decide)⟩

/-- C4: on any buffer of at least 404 bytes the source decoder agrees with the
decoder written from the layout words of the spec: fields read sequentially in the
order alpha, pk, gamma, c, s, uWitness, cGammaWitness, sHashWitness, zInv;
32-byte big-endian integers (alpha a raw digest); uWitness the low 20 bytes of
the 32-byte slot immediately after `s`; 7×32 + 20 + 5×32 = 404 bytes consumed
in total, with no padding. -/
theorem parse_matches_spec_layout (buf : List Nat) (h : 404 ≤ buf.length) :
    parse_vrf_proof buf = some (spec_layout_decode buf) :=
  parse_eq_layout buf h

set_option maxRecDepth 40000 in
theorem parse_matches_spec_layout_witness :
    404 ≤ ((List.range 404).map (· % 256)).length ∧
    parse_vrf_proof ((List.range 404).map (· % 256)) =
      some (spec_layout_decode ((List.range 404).map (· % 256))) :=
  ⟨by decide, parse_matches_spec_layout ((List.range 404).map (· % 256)) (by decide)⟩

/-- C5: construction equivalence — for any well-formed prover output `x`, the
direct-construction path yields a proof structurally identical to decoding its
canonical 404-byte serialization:
`create_vrf_proof x = decode (serialize (create_vrf_proof x))`. -/
theorem construct_equals_decode_serialize (x : ProverOutput) (hx : x.WF) :
    parse_vrf_proof (serialize_proof (create_vrf_proof x)) =
      some (create_vrf_proof x) := by
  obtain ⟨hA, hPx, hPy, hGx, hGy, hC, hSs, hW, hWGx, hWGy, hWHx, hWHy, hZ⟩ := hx
  have bound : ∀ l : List Nat, Bytes32 l → fromBE l < 256 ^ 32 := by
    intro l hl
    have := fromBE_lt l hl.2
    rwa [hl.1] at this
  have wf : (create_vrf_proof x).WF := by
    refine ⟨hA.1, ?_, bound _ hPx, bound _ hPy, bound _ hGx, bound _ hGy,
      bound _ hC, bound _ hSs, bound _ hWGx, bound _ hWGy, bound _ hWHx,
      bound _ hWHy, bound _ hZ⟩
    show (x.witness_address.take 20).length = 20
    rw [List.length_take, hW.1]
    norm_num
  have hlen : (serialize_proof (create_vrf_proof x)).length = 404 :=
    serialize_length _ wf.1 wf.2.1
  rw [parse_eq_layout _ (by omega), layout_serialize _ wf]

theorem construct_equals_decode_serialize_witness :
    (ProverOutput.mk (List.replicate 32 0) (List.replicate 32 1) (List.replicate 32 2)
      (List.replicate 32 3) (List.replicate 32 4) (List.replicate 32 5)
      (List.replicate 32 6) (List.replicate 32 7) (List.replicate 32 8)
      (List.replicate 32 9) (List.replicate 32 10) (List.replicate 32 11)
      (List.replicate 32 12)).WF ∧
    parse_vrf_proof (serialize_proof (create_vrf_proof
      (ProverOutput.mk (List.replicate 32 0) (List.replicate 32 1) (List.replicate 32 2)
        (List.replicate 32 3) (List.replicate 32 4) (List.replicate 32 5)
        (List.replicate 32 6) (List.replicate 32 7) (List.replicate 32 8)
        (List.replicate 32 9) (List.replicate 32 10) (List.replicate 32 11)
        (List.replicate 32 12)))) =
      some (create_vrf_proof
        (ProverOutput.mk (List.replicate 32 0) (List.replicate 32 1) (List.replicate 32 2)
          (List.replicate 32 3) (List.replicate 32 4) (List.replicate 32 5)
          (List.replicate 32 6) (List.replicate 32 7) (List.replicate 32 8)
          (List.replicate 32 9) (List.replicate 32 10) (List.replicate 32 11)
          (List.replicate 32 12))) :=
  ⟨by decide, construct_equals_decode_serialize _ (by decide)⟩

/-- C7: the signature formatter — for a raw signature whose recovery id is 0
or 1, the formatted signature has `v = recoveryId + 27` (so 27 or 28, never 0
or 1), copies `r` and `s`, and embeds the wallet. The same holds for the
`v + 27` conversion inside the hardware-backed `get_signed`. -/
theorem signature_v_normalized (rd : List Nat) (signFn : List Nat → RawSig) (w : Nat)
    (h : (signFn rd).v = 0 ∨ (signFn rd).v = 1) :
    ((sign_data rd signFn w).v = (signFn rd).v + 27 ∧
      ((sign_data rd signFn w).v = 27 ∨ (sign_data rd signFn w).v = 28) ∧
      (sign_data rd signFn w).v ≠ 0 ∧ (sign_data rd signFn w).v ≠ 1 ∧
      (sign_data rd signFn w).r = (signFn rd).r ∧
      (sign_data rd signFn w).s = (signFn rd).s ∧
      (sign_data rd signFn w).wallet = w) ∧
    ∀ (q : SignedQRN) (sn : SignedNumber), q.v = 0 ∨ q.v = 1 →
      hw_convert w q = some sn →
      sn.2.2.1.v = q.v + 27 ∧ (sn.2.2.1.v = 27 ∨ sn.2.2.1.v = 28) := by
  constructor
  · unfold sign_data
    rcases h with h | h <;>
      simp [h]
  · intro q sn hq hconv
    unfold hw_convert at hconv
    by_cases hn : q.number.length = 32
    · rw [if_pos hn] at hconv
      cases hp : parse_vrf_proof q.proof with
      | none => rw [hp] at hconv; cases hconv
      | some pf =>
        rw [hp] at hconv
        cases hconv
        rcases hq with h | h <;> simp [h]
    · rw [if_neg hn] at hconv; cases hconv

theorem signature_v_normalized_witness :
    ((sign_data [1, 2] (fun _ => ⟨[3], [4], 1⟩) 77).v = 1 + 27 ∧
      ((sign_data [1, 2] (fun _ => ⟨[3], [4], 1⟩) 77).v = 27 ∨
        (sign_data [1, 2] (fun _ => ⟨[3], [4], 1⟩) 77).v = 28) ∧
      (sign_data [1, 2] (fun _ => ⟨[3], [4], 1⟩) 77).v ≠ 0 ∧
      (sign_data [1, 2] (fun _ => ⟨[3], [4], 1⟩) 77).v ≠ 1 ∧
      (sign_data [1, 2] (fun _ => ⟨[3], [4], 1⟩) 77).r = [3] ∧
      (sign_data [1, 2] (fun _ => ⟨[3], [4], 1⟩) 77).s = [4] ∧
      (sign_data [1, 2] (fun _ => ⟨[3], [4], 1⟩) 77).wallet = 77) ∧
    ∀ (q : SignedQRN) (sn : SignedNumber), q.v = 0 ∨ q.v = 1 →
      hw_convert 77 q = some sn →
      sn.2.2.1.v = q.v + 27 ∧ (sn.2.2.1.v = 27 ∨ sn.2.2.1.v = 28) :=
  signature_v_normalized [1, 2] (fun _ => ⟨[3], [4], 1⟩) 77 (Or.inr rfl)

theorem send_call_shape (gen : Nat → Nat → Nat → Except Nat (List SignedNumber))
    (sendCall : ContractCall → Except Nat Nat) (getReceipt : Nat → Except Nat Receipt)
    (traceRpc : Nat → Except Nat Nat) (w g nonce : Nat) (l : List SignedNumber)
    (hg : gen (gen_left_of g) nonce w = .ok l) :
    (send_random_number gen sendCall getReceipt traceRpc w g nonce).call =
      some (if g ≠ 1 then
        ContractCall.addRandomNumbers (l.map (fun x => x.1)) (l.map (fun x => x.2.2.1))
          (l.map (fun x => x.2.1)) (l.map (fun x => x.2.2.2))
      else
        .addRandomNumber ((l.map (fun x => x.1)).getD 0 0)
          ((l.map (fun x => x.2.2.1)).getD 0 default)
          ((l.map (fun x => x.2.1)).getD 0 [])
          ((l.map (fun x => x.2.2.2)).getD 0 default)) := by
  simp only [send_random_number, hg]
  split <;> rename_i hsc
  · rfl
  · split <;> rename_i hrc
    · rfl
    · split
      · rfl
      · split <;> rfl

/-- C6: for 1 ≤ N < 2^32 (the regime where the truncated request equals N,
see C10) and a generator returning N tuples, the pipeline partitions them into
four parallel arrays of length N in the same order; N = 1 issues the single
call exactly once with the four scalar components of the first tuple, any
other N issues the batch call exactly once with the four arrays; and with the
offline generator the i-th tuple is the one built for nonce + i. -/
theorem dispatch_shape (gen : Nat → Nat → Nat → Except Nat (List SignedNumber))
    (sendCall : ContractCall → Except Nat Nat) (getReceipt : Nat → Except Nat Receipt)
    (traceRpc : Nat → Except Nat Nat) (w N nonce : Nat) (l : List SignedNumber)
    (h1 : 1 ≤ N) (h2 : N < 2 ^ 32) (hg : gen N nonce w = .ok l) (hlen : l.length = N) :
    (N = 1 → (send_random_number gen sendCall getReceipt traceRpc w N nonce).call =
        some (.addRandomNumber (l.getD 0 default).1 (l.getD 0 default).2.2.1
          (l.getD 0 default).2.1 (l.getD 0 default).2.2.2)) ∧
    (N ≠ 1 → (send_random_number gen sendCall getReceipt traceRpc w N nonce).call =
        some (.addRandomNumbers (l.map (fun x => x.1)) (l.map (fun x => x.2.2.1))
          (l.map (fun x => x.2.1)) (l.map (fun x => x.2.2.2)))) ∧
    (l.map (fun x => x.1)).length = N ∧ (l.map (fun x => x.2.2.1)).length = N ∧
    (l.map (fun x => x.2.1)).length = N ∧ (l.map (fun x => x.2.2.2)).length = N ∧
    ∀ (randoms : Nat → List Nat) (keccak : List Nat → List Nat)
      (signFn : List Nat → RawSig) (proveFn : List Nat → ProverOutput),
      ∃ lo, offline_get_signed randoms keccak signFn proveFn N nonce w = .ok lo ∧
        lo.length = N ∧
        ∀ i, i < N → lo.getD i default =
          (fromBE (randoms i),
            keccak (randoms i ++ toBE 8 ((nonce + i) % 2 ^ 64)),
            sign_data (keccak (randoms i ++ toBE 8 ((nonce + i) % 2 ^ 64))) signFn w,
            create_vrf_proof (proveFn (randoms i))) := by
  have hgl : gen_left_of N = N := by
    unfold gen_left_of
    rw [Nat.mod_eq_of_lt (lt_trans h2 (by norm_num)), Nat.mod_eq_of_lt h2]
  have hg' : gen (gen_left_of N) nonce w = .ok l := by rw [hgl]; exact hg
  have hshape := send_call_shape gen sendCall getReceipt traceRpc w N nonce l hg'
  refine ⟨fun hN => ?_, fun hN => ?_, by simp [hlen], by simp [hlen], by simp [hlen],
    by simp [hlen], ?_⟩
  · subst hN
    match l, hlen with
    | [a], _ =>
      rw [hshape]
      simp
  · rw [hshape, if_pos hN]
  · intro randoms keccak signFn proveFn
    refine ⟨_, rfl, by simp, fun i hi => ?_⟩
    have hi' : i < ((List.range N).map (fun i =>
        let data := randoms i
        let hash := keccak (data ++ toBE 8 ((nonce + i) % 2 ^ 64))
        ((fromBE data, hash, sign_data hash signFn w,
          create_vrf_proof (proveFn data)) : SignedNumber))).length := by
      simpa using hi
    rw [List.getD_eq_getElem _ _ hi', List.getElem_map, List.getElem_range]

theorem dispatch_shape_witness :
    ((1 : Nat) ≤ 1 ∧ (1 : Nat) < 2 ^ 32 ∧
      (send_random_number (fun _ _ _ => .ok [(5, [6], default, default)])
          (fun _ => .ok 0) (fun _ => .ok ⟨true, 0⟩) (fun _ => .ok 0) 9 1 3).call =
        some (.addRandomNumber 5 default [6] default)) ∧
    ((4 : Nat) ≤ 4 ∧
      (send_random_number
          (fun a _ _ => .ok ((List.range a).map (fun i => (i, [i], default, default))))
          (fun _ => .ok 0) (fun _ => .ok ⟨true, 0⟩) (fun _ => .ok 0) 9 4 3).call =
        some (.addRandomNumbers [0, 1, 2, 3] [default, default, default, default]
          [[0], [1], [2], [3]] [default, default, default, default])) := by
  constructor
  · refine ⟨le_refl 1, by norm_num, ?_⟩
    have h := (dispatch_shape (fun _ _ _ => .ok [(5, [6], default, default)])
      (fun _ => .ok 0) (fun _ => .ok ⟨true, 0⟩) (fun _ => .ok 0) 9 1 3
      [(5, [6], default, default)] (le_refl 1) (by norm_num) rfl rfl).1 rfl
    simpa using h
  · refine ⟨le_refl 4, ?_⟩
    have h := (dispatch_shape
      (fun a _ _ => .ok ((List.range a).map (fun i => (i, [i], default, default))))
      (fun _ => .ok 0) (fun _ => .ok ⟨true, 0⟩) (fun _ => .ok 0) 9 4 3
      ((List.range 4).map (fun i => (i, [i], default, default)))
      (by norm_num) (by norm_num) rfl (by simp)).2.1 (by norm_num)
    simpa using h

/-- C8: revert diagnosis — when the receipt reports success the pipeline
returns `Ok` and issues no trace lookup; when it reports failure the pipeline
issues exactly one `debug_traceTransaction` lookup keyed by the transaction
hash of that receipt and returns an error embedding the trace payload. -/
theorem revert_diagnosis (gen : Nat → Nat → Nat → Except Nat (List SignedNumber))
    (sendCall : ContractCall → Except Nat Nat) (getReceipt : Nat → Except Nat Receipt)
    (traceRpc : Nat → Except Nat Nat) (w g nonce tx t : Nat)
    (l : List SignedNumber) (receipt : Receipt)
    (hg : gen (gen_left_of g) nonce w = .ok l)
    (hsend : ∀ call, sendCall call = .ok tx)
    (hrec : ∀ x, getReceipt x = .ok receipt)
    (htr : traceRpc receipt.transaction_hash = .ok t) :
    (receipt.status = true →
      (send_random_number gen sendCall getReceipt traceRpc w g nonce).result = .ok () ∧
      (send_random_number gen sendCall getReceipt traceRpc w g nonce).traces = []) ∧
    (receipt.status = false →
      (send_random_number gen sendCall getReceipt traceRpc w g nonce).result =
        .error (.revert t) ∧
      (send_random_number gen sendCall getReceipt traceRpc w g nonce).traces =
        [receipt.transaction_hash]) := by
  constructor
  · intro hst
    constructor <;> simp [send_random_number, hg, hsend, hrec, htr, hst]
  · intro hst
    constructor <;> simp [send_random_number, hg, hsend, hrec, htr, hst]

theorem revert_diagnosis_witness :
    ((send_random_number (fun _ _ _ => .ok []) (fun _ => .ok 4)
        (fun _ => .ok ⟨true, 11⟩) (fun _ => .ok 5) 9 7 3).result = .ok () ∧
      (send_random_number (fun _ _ _ => .ok []) (fun _ => .ok 4)
        (fun _ => .ok ⟨true, 11⟩) (fun _ => .ok 5) 9 7 3).traces = []) ∧
    ((send_random_number (fun _ _ _ => .ok []) (fun _ => .ok 4)
        (fun _ => .ok ⟨false, 11⟩) (fun _ => .ok 5) 9 7 3).result =
        .error (.revert 5) ∧
      (send_random_number (fun _ _ _ => .ok []) (fun _ => .ok 4)
        (fun _ => .ok ⟨false, 11⟩) (fun _ => .ok 5) 9 7 3).traces = [11]) :=
  ⟨(revert_diagnosis (fun _ _ _ => .ok []) (fun _ => .ok 4) (fun _ => .ok ⟨true, 11⟩)
      (fun _ => .ok 5) 9 7 3 4 5 [] ⟨true, 11⟩ rfl (fun _ => rfl) (fun _ => rfl) rfl).1 rfl,
   (revert_diagnosis (fun _ _ _ => .ok []) (fun _ => .ok 4) (fun _ => .ok ⟨false, 11⟩)
      (fun _ => .ok 5) 9 7 3 4 5 [] ⟨false, 11⟩ rfl (fun _ => rfl) (fun _ => rfl) rfl).2 rfl⟩

/-- C9: ambiguous outcome — when the receipt cannot be obtained, the pipeline
fails with the propagated receipt-fetch error, a value distinct from the
revert error (and from every other error constructor), so a caller can tell
the two outcomes apart; no trace lookup happens in that case. -/
theorem ambiguous_outcome_distinct (gen : Nat → Nat → Nat → Except Nat (List SignedNumber))
    (sendCall : ContractCall → Except Nat Nat) (getReceipt : Nat → Except Nat Receipt)
    (traceRpc : Nat → Except Nat Nat) (w g nonce tx e : Nat) (l : List SignedNumber)
    (hg : gen (gen_left_of g) nonce w = .ok l)
    (hsend : ∀ call, sendCall call = .ok tx)
    (hrec : ∀ x, getReceipt x = .error e) :
    (send_random_number gen sendCall getReceipt traceRpc w g nonce).result =
      .error (.receiptFailed e) ∧
    (send_random_number gen sendCall getReceipt traceRpc w g nonce).traces = [] ∧
    ∀ t : Nat, SendError.receiptFailed e ≠ SendError.revert t := by
  refine ⟨?_, ?_, fun t h => by cases h⟩ <;>
    simp [send_random_number, hg, hsend, hrec]

theorem ambiguous_outcome_distinct_witness :
    ((send_random_number (fun _ _ _ => .ok []) (fun _ => .ok 4)
        (fun _ => .error 13) (fun _ => .ok 5) 9 7 3).result =
      .error (.receiptFailed 13)) ∧
    ∀ t : Nat, SendError.receiptFailed 13 ≠ SendError.revert t :=
  ⟨(ambiguous_outcome_distinct (fun _ _ _ => .ok []) (fun _ => .ok 4)
      (fun _ => .error 13) (fun _ => .ok 5) 9 7 3 4 13 [] rfl (fun _ => rfl)
      (fun _ => rfl)).1,
   (ambiguous_outcome_distinct (fun _ _ _ => .ok []) (fun _ => .ok 4)
      (fun _ => .error 13) (fun _ => .ok 5) 9 7 3 4 13 [] rfl (fun _ => rfl)
      (fun _ => rfl)).2.2⟩

/-- C10: the amount requested from the generator is the low 64-bit limb of
`generation_left` truncated to 32 bits (equivalently `generation_left mod
2^32`), while the single-vs-batch dispatch compares the full untruncated
`generation_left` with 1; so for any `generation_left ≥ 2^32` (with a
generator honoring its contract of returning exactly the requested amount)
the number of values submitted is `generation_left mod 2^32 ≠ generation_left`
— in particular `generation_left = 2^32` yields a batch call with four empty
arrays, and `2^32 + 1` yields a batch (not single) call with one element. -/
theorem generation_left_truncation (g nonce w : Nat) (f : Nat → SignedNumber)
    (sendCall : ContractCall → Except Nat Nat) (getReceipt : Nat → Except Nat Receipt)
    (traceRpc : Nat → Except Nat Nat) :
    gen_left_of g = g % 2 ^ 32 ∧
    (2 ^ 32 ≤ g →
      (send_random_number (fun a _ _ => .ok ((List.range a).map f)) sendCall getReceipt
          traceRpc w g nonce).call =
        some (.addRandomNumbers (((List.range (g % 2 ^ 32)).map f).map (fun x => x.1))
          (((List.range (g % 2 ^ 32)).map f).map (fun x => x.2.2.1))
          (((List.range (g % 2 ^ 32)).map f).map (fun x => x.2.1))
          (((List.range (g % 2 ^ 32)).map f).map (fun x => x.2.2.2))) ∧
      g % 2 ^ 32 ≠ g) ∧
    (send_random_number (fun a _ _ => .ok ((List.range a).map f)) sendCall getReceipt
        traceRpc w (2 ^ 32) nonce).call = some (.addRandomNumbers [] [] [] []) ∧
    (send_random_number (fun a _ _ => .ok ((List.range a).map f)) sendCall getReceipt
        traceRpc w (2 ^ 32 + 1) nonce).call =
      some (.addRandomNumbers [(f 0).1] [(f 0).2.2.1] [(f 0).2.1] [(f 0).2.2.2]) := by
  have hmod : ∀ x : Nat, gen_left_of x = x % 2 ^ 32 := fun x =>
    Nat.mod_mod_of_dvd x (by norm_num)
  have hpow : (1 : Nat) < 2 ^ 32 := by norm_num
  refine ⟨hmod g, fun hge => ⟨?_, ?_⟩, ?_, ?_⟩
  · have hshape := send_call_shape (fun a _ _ => .ok ((List.range a).map f))
      sendCall getReceipt traceRpc w g nonce ((List.range (g % 2 ^ 32)).map f)
      (by rw [hmod g])
    rw [hshape, if_pos (by omega)]
  · have := Nat.mod_lt g (show 0 < 2 ^ 32 by norm_num)
    omega
  · have hshape := send_call_shape (fun a _ _ => .ok ((List.range a).map f))
      sendCall getReceipt traceRpc w (2 ^ 32) nonce ((List.range (2 ^ 32 % 2 ^ 32)).map f)
      (by rw [hmod])
    rw [hshape, if_pos (by omega)]
    norm_num
  · have hshape := send_call_shape (fun a _ _ => .ok ((List.range a).map f))
      sendCall getReceipt traceRpc w (2 ^ 32 + 1) nonce
      ((List.range ((2 ^ 32 + 1) % 2 ^ 32)).map f) (by rw [hmod])
    rw [hshape, if_pos (by omega)]
    have : (2 ^ 32 + 1) % 2 ^ 32 = 1 := by
      rw [Nat.add_mod_left]
      exact Nat.mod_eq_of_lt hpow
    rw [this]
    norm_num [List.range_succ]

theorem generation_left_truncation_witness :
    (2 : Nat) ^ 32 ≤ 2 ^ 32 + 5 ∧ (2 ^ 32 + 5) % 2 ^ 32 ≠ 2 ^ 32 + 5 ∧
    (send_random_number (fun a _ _ => .ok ((List.range a).map (fun _ => default)))
        (fun _ => .ok 0) (fun _ => .ok ⟨true, 0⟩) (fun _ => .ok 0) 1 (2 ^ 32) 0).call =
      some (.addRandomNumbers [] [] [] []) :=
  ⟨by norm_num,
   ((generation_left_truncation (2 ^ 32 + 5) 0 1 (fun _ => default) (fun _ => .ok 0)
      (fun _ => .ok ⟨true, 0⟩) (fun _ => .ok 0)).2.1 (by norm_num)).2,
   (generation_left_truncation (2 ^ 32 + 5) 0 1 (fun _ => default) (fun _ => .ok 0)
      (fun _ => .ok ⟨true, 0⟩) (fun _ => .ok 0)).2.2.1⟩

end QryptoRand
